import Mathlib

/-!
Shallow embedding of the CacheLineDetection inference engine
(file: Cache Line Detection/cache.c).

Modelling conventions:
* `timing_t` is `clock_t` on the default (non-macOS) build, a signed
  integer type; timing samples are therefore modelled as `Int`.
* Timing measurements are nondeterministic at the C level; they enter the
  model as oracle functions (`measure`) giving the recorded sample of each
  buffer size or stride.  Warm-up runs are discarded by the code and do
  not appear in the model.
* Allocation success is likewise an oracle (`allocTD`, `allocBuf`,
  `allocOk`): `malloc` may fail on any call.
* `detect_cache_level` frees `timingData` (cache.c line 344) and later
  reads `timingData[0]`, `timingData[i]` in its 50 percent fallback
  (lines 359-369).  Those reads touch freed memory, so their values are
  whatever the allocator left behind; they are modelled by a separate
  oracle `freed : Nat -> Int` (indexed by array slot) rather than by the
  recorded samples.
* C `unsigned int` arithmetic is modelled on `Nat` with explicit
  `% 2 ^ 32` where a wrap can actually occur (the `i * stride` product,
  the `locationOfBiggestJumpAmount - 1` subtraction, `int_pow`).
  The size-enumeration loops are modelled with a fuel of 64, which
  strictly exceeds the at most 33 doublings a nonzero `unsigned int`
  counter can perform before leaving the 32-bit range; the model thus
  agrees with the C loops on every input expressible in C.
-/

/-- The candidate strides of `detect_cache_line_size` (cache.c line 186). -/
def candidateStrides : List Nat := [32, 64, 128, 256]

/-- The fixed iteration count of `iterate_through_data` (cache.c line 25):
128*1024*1024 = 134217728. -/
def iterSteps : Nat := 128 * 1024 * 1024

/-- Index touched by iteration `i` of `iterate_through_data` (cache.c line 42):
`(i * stride) & lengthMod` with `lengthMod = dataSize - 1`, the product taken
in `unsigned int` arithmetic. -/
def touchIndex (dataSize stride i : Nat) : Nat :=
  (i * stride % 2 ^ 32) &&& (dataSize - 1)

/-- One touch of `iterate_through_data`: `++data[(i * stride) & lengthMod]`,
a read-modify-write of one byte. -/
def touchStep (dataSize stride : Nat) (data : List Nat) (i : Nat) : List Nat :=
  let idx := touchIndex dataSize stride i
  data.set idx ((data.getD idx 0 + 1) % 256)

/-- `iterate_through_data` (cache.c lines 23-43): `iterSteps` successive
touches of the buffer. -/
def iterate_through_data (data : List Nat) (dataSize stride : Nat) : List Nat :=
  (List.range iterSteps).foldl (touchStep dataSize stride) data

/-- Adjacent deltas `timingData[i] - timingData[i-1]` of a sample list,
`deltasOf ts` has the delta with right endpoint `i` at position `i - 1`. -/
def deltasOf (ts : List Int) : List Int :=
  List.zipWith (fun a b => b - a) ts ts.tail

/-- The adjacent delta of `ts` at right endpoint `j` (for `1 <= j < ts.length`). -/
def dlt (ts : List Int) (j : Nat) : Int :=
  ts.getD j 0 - ts.getD (j - 1) 0

/-- The shared scan loop shape of cache.c: walk the deltas, remembering the
biggest value seen so far and the (right-endpoint) index where it was seen;
an element wins only when strictly greater, so the first maximum is kept.
Arguments: remaining deltas, index of the next delta, best so far, its index. -/
def scanAux : List Int → Nat → Int → Nat → Int × Nat
  | [], _, b, l => (b, l)
  | d :: r, i, b, l => if b < d then scanAux r (i + 1) d i else scanAux r (i + 1) b l

/-- The biggest-jump scan over a sample list, starting from sentinel `b0`
and location 0 (cache.c lines 131-140, 229-254 second loop, 336-342). -/
def jumpScan (ts : List Int) (b0 : Int) : Int × Nat :=
  scanAux (deltasOf ts) 1 b0 0

/-- The loop of `determine_size_of_timing_data_required` (cache.c lines
101-112) and of `fill_timing_data` (line 91): count the doublings of `cur`
while `cur < m`.  Structured with fuel so that it computes; fuel 64
covers every `unsigned int` input (at most 33 iterations). -/
def growCountFuel : Nat → Nat → Nat → Nat
  | 0, _, _ => 0
  | fuel + 1, cur, m =>
    if 0 < cur ∧ cur < m then growCountFuel fuel (2 * cur) m + 1 else 0

/-- `determine_size_of_timing_data_required` (cache.c lines 101-112). -/
def determine_size_of_timing_data_required (maxAlignment : Nat) : Nat :=
  growCountFuel 64 1 maxAlignment

/-- Modelled from the spec: `int_pow` lives in fast_math.c, which is not
part of the sources; per the spec the growth-sweep result is
`2 ^ (index - 1)`, and the C function returns `unsigned int`, so the power
is taken modulo `2 ^ 32`. -/
def int_pow (base e : Nat) : Nat := base ^ e % 2 ^ 32

/-- `get_cache_line_size_from_timing_data` (cache.c lines 118-147): biggest
jump scan with sentinel -9001, then `int_pow(2, location - 1)` where the
subtraction is `unsigned int` (wraps to `2 ^ 32 - 1` when location = 0). -/
def get_cache_line_size_from_timing_data (timingData : List Int) : Nat :=
  int_pow 2 (((jumpScan timingData (-9001)).2 + (2 ^ 32 - 1)) % 2 ^ 32)

/-- The samples recorded by `fill_timing_data` (cache.c lines 79-98):
`timingData[i]` is the timing of a buffer of `2 ^ i` bytes traversed with
the caller-supplied stride. -/
def sweepTimings (maxAlignment stride : Nat) (measure : Nat → Nat → Int) : List Int :=
  (List.range (determine_size_of_timing_data_required maxAlignment)).map
    (fun i => measure (2 ^ i) stride)

/-- `get_cache_line` (cache.c lines 149-171). -/
def get_cache_line (maxAlignment stride : Nat) (measure : Nat → Nat → Int) : Nat :=
  get_cache_line_size_from_timing_data (sweepTimings maxAlignment stride measure)

/-- The (buffer size, stride) pair measured by each step of
`fill_timing_data` (cache.c lines 91-95), as a fueled loop mirroring the C
`for(currentAlignment = 1; currentAlignment < maxAlignment; currentAlignment *= 2)`. -/
def sweepPairsFuel : Nat → Nat → Nat → Nat → List (Nat × Nat)
  | 0, _, _, _ => []
  | fuel + 1, cur, m, stride =>
    if 0 < cur ∧ cur < m then (cur, stride) :: sweepPairsFuel fuel (2 * cur) m stride else []

/-- The measurement pairs performed by `fill_timing_data`. -/
def fill_timing_pairs (maxAlignment stride : Nat) : List (Nat × Nat) :=
  sweepPairsFuel 64 1 maxAlignment stride

/-- Modelled from the spec (section 4.3, growth-sweep variant): measure one
traversal with stride equal to the current alignment, i.e. the stride grows
with the buffer size.  Used only to compare the spec text against the code. -/
def growthSweepPairsSpec (maxAlignment : Nat) : List (Nat × Nat) :=
  (List.range (determine_size_of_timing_data_required maxAlignment)).map
    (fun i => (2 ^ i, 2 ^ i))

/-- `ratioToLinear` of `detect_cache_line_size` (cache.c lines 237-245).
On the default build `timing_t` is the integer `clock_t`, so
`relativeJump = (tL - tS) / tS` is C integer division (truncation toward
zero, `Int.tdiv`); the mixed comparisons and conversions with the double
literals 1.0 are exact on integer values. -/
def ratioLinOf (tL tS : Int) : Int :=
  if 1 < Int.tdiv (tL - tS) tS then Int.tdiv (tL - tS) tS - 1 else 1 - Int.tdiv (tL - tS) tS

/-- One step of the relative-jump heuristic of `detect_cache_line_size`
(cache.c lines 229-254), guarded by `timeAtSmallerStride > 0`. -/
def ratioStep (ts : List Int) (st : Int × Nat) (i : Nat) : Int × Nat :=
  if 0 < ts.getD (i - 1) 0 then
    if ratioLinOf (ts.getD i 0) (ts.getD (i - 1) 0) < st.1 ∨ st.1 = 0 then
      (ratioLinOf (ts.getD i 0) (ts.getD (i - 1) 0), candidateStrides.getD (i - 1) 0)
    else st
  else st

/-- The relative-jump heuristic loop (`for (i = 1; i < numCandidates; i++)`),
starting from `biggestJump = 0`, `cacheLineSize = 64`. -/
def ratioScan (ts : List Int) : Int × Nat :=
  [1, 2, 3].foldl (ratioStep ts) (0, 64)

/-- `detect_cache_line_size` (cache.c lines 183-278).  `allocOk` tells
whether `malloc(maxSize)` succeeded; `measure s` is the recorded timing at
candidate stride `s` (the warm-up run is discarded).  The absolute-jump
scan (lines 261-277) overrides the relative-jump heuristic whenever some
adjacent delta is positive. -/
def detect_cache_line_size (maxSize : Nat) (allocOk : Bool) (measure : Nat → Int) : Nat :=
  if allocOk = false then 64
  else if 0 < (jumpScan (candidateStrides.map measure) 0).1 then
    candidateStrides.getD ((jumpScan (candidateStrides.map measure) 0).2 - 1) 0
  else (ratioScan (candidateStrides.map measure)).2

/-- The loop counting test sizes in `detect_cache_level` (cache.c lines
301-304): doublings of `cur` while `cur <= m`.  Fuel 64 covers every
`unsigned int` input. -/
def geomCountFuel : Nat → Nat → Nat → Nat
  | 0, _, _ => 0
  | fuel + 1, cur, m =>
    if 0 < cur ∧ cur ≤ m then geomCountFuel fuel (2 * cur) m + 1 else 0

/-- The test sizes enumerated by `detect_cache_level`:
`minSize, 2*minSize, ..., <= maxSize` (cache.c lines 301-304 and 315). -/
def sweepSizes (minSize maxSize : Nat) : List Nat :=
  (List.range (geomCountFuel 64 minSize maxSize)).map (fun k => minSize * 2 ^ k)

/-- The 50 percent fallback loop of `detect_cache_level` (cache.c lines
360-369): the first `i` in `[1, numTests)` whose (freed) slot exceeds 1.5
times the (freed) slot 0; `a > b * 1.5` on integers is `2*a > 3*b`. -/
def firstOver (freed : Nat → Int) (numTests : Nat) : Option Nat :=
  ((List.range (numTests - 1)).map (fun j => j + 1)).find?
    (fun i => decide (3 * freed 0 < 2 * freed i))

/-- The decision part of `detect_cache_level` (cache.c lines 332-373) after
the timing data has been recorded: biggest-jump branch on the recorded
samples; otherwise the 50 percent heuristic, which reads the already freed
`timingData` array (modelled by `freed`); otherwise `maxSize / 2`. -/
def detect_cache_level_core (minSize maxSize : Nat) (timingData : List Int)
    (numTests : Nat) (freed : Nat → Int) : Nat :=
  if 0 < (jumpScan timingData 0).2 then minSize * 2 ^ ((jumpScan timingData 0).2 - 1)
  else if 2 ≤ numTests ∧ 0 < freed 0 then
    match firstOver freed numTests with
    | some i => minSize * 2 ^ (i - 1)
    | none => maxSize / 2
  else maxSize / 2

/-- `detect_cache_level` (cache.c lines 292-374).  `measure s` is the
recorded sample for the test buffer of `s` bytes (two warm-ups discarded);
`allocTD` is the success of the `timingData` malloc, `allocBuf s` the
success of the per-step buffer malloc (the first failure aborts the call
with 0, which gives the same result as checking them all); `freed i` is
the residual content of slot `i` of the freed `timingData` array. -/
def detect_cache_level (minSize maxSize stride : Nat) (measure : Nat → Int)
    (allocTD : Bool) (allocBuf : Nat → Bool) (freed : Nat → Int) : Nat :=
  if allocTD = false then 0
  else if (sweepSizes minSize maxSize).any (fun s => !(allocBuf s)) then 0
  else detect_cache_level_core minSize maxSize
    ((sweepSizes minSize maxSize).map measure) (sweepSizes minSize maxSize).length freed

/-- `get_all_cache_sizes` (cache.c lines 416-425): one line-size detection,
reused as the stride of the three level detections.  Result order:
(L1, L2, L3, line). -/
def get_all_cache_sizes (lineAlloc : Bool) (lineMeasure : Nat → Int)
    (levelMeasure : Nat → Int) (allocTD : Bool) (allocBuf : Nat → Bool)
    (freed : Nat → Int) : Nat × Nat × Nat × Nat :=
  let cacheLine := detect_cache_line_size (1024 * 1024) lineAlloc lineMeasure
  (detect_cache_level (16 * 1024) (512 * 1024) cacheLine levelMeasure allocTD allocBuf freed,
   detect_cache_level (256 * 1024) (16 * 1024 * 1024) cacheLine levelMeasure allocTD allocBuf freed,
   detect_cache_level (4 * 1024 * 1024) (64 * 1024 * 1024) cacheLine levelMeasure allocTD allocBuf freed,
   cacheLine)

/-- `j` is the right endpoint of the first occurrence of the maximum
adjacent delta of `ts`, and that delta is positive: the boundary notion of
the spec (max positive delta, ties broken by first occurrence). -/
def isFirstMaxPosDelta (ts : List Int) (j : Nat) : Prop :=
  1 ≤ j ∧ j < ts.length ∧ 0 < dlt ts j ∧
    (∀ k < ts.length, 1 ≤ k → dlt ts k ≤ dlt ts j) ∧
    (∀ k < j, 1 ≤ k → dlt ts k < dlt ts j)

instance (ts : List Int) (j : Nat) : Decidable (isFirstMaxPosDelta ts j) := by
  unfold isFirstMaxPosDelta; infer_instance

/-! ### Helper lemmas about the shared scan loop -/

theorem scanAux_all_le (ds : List Int) : ∀ (i : Nat) (b : Int) (l : Nat),
    (∀ d ∈ ds, d ≤ b) → scanAux ds i b l = (b, l) := by
  induction ds with
  | nil => intro i b l _; rfl
  | cons d r ih =>
    intro i b l h
    have hd : ¬ b < d := not_lt.mpr (h d (by simp))
    simp only [scanAux, if_neg hd]
    exact ih (i + 1) b l (fun x hx => h x (by simp [hx]))

theorem scanAux_exists (ds : List Int) : ∀ (i : Nat) (b : Int) (l : Nat),
    (∃ d ∈ ds, b < d) →
    ∃ k, k < ds.length ∧ scanAux ds i b l = (ds.getD k 0, i + k) ∧ b < ds.getD k 0 ∧
      (∀ q < k, ds.getD q 0 < ds.getD k 0) ∧
      (∀ q < ds.length, ds.getD q 0 ≤ ds.getD k 0) := by
  induction ds with
  | nil => intro i b l h; simp at h
  | cons d r ih =>
    intro i b l h
    by_cases hbd : b < d
    · by_cases hr : ∃ x ∈ r, d < x
      · obtain ⟨k, hk, heq, hblt, hfst, hmx⟩ := ih (i + 1) d i hr
        refine ⟨k + 1, by simpa using Nat.succ_lt_succ hk, ?_, ?_, ?_, ?_⟩
        · simp only [scanAux, if_pos hbd, List.getD_cons_succ]
          rw [heq]
          congr 1
          omega
        · simpa using lt_trans hbd hblt
        · intro q hq
          cases q with
          | zero => simpa using hblt
          | succ q' => simpa using hfst q' (by omega)
        · intro q hq
          cases q with
          | zero => simpa using le_of_lt hblt
          | succ q' => simpa using hmx q' (by simpa using hq)
      · push_neg at hr
        refine ⟨0, by simp, ?_, by simpa using hbd, by simp, ?_⟩
        · simp only [scanAux, if_pos hbd, List.getD_cons_zero]
          rw [scanAux_all_le r (i + 1) d i hr]
          simp
        · intro q hq
          cases q with
          | zero => simp
          | succ q' =>
            simp only [List.getD_cons_succ, List.getD_cons_zero]
            exact hr _ (by
              have hq' : q' < r.length := by simpa using hq
              rw [List.getD_eq_getElem?_getD, List.getElem?_eq_getElem hq', Option.getD_some]
              exact List.getElem_mem _)
    · have hx : ∃ x ∈ r, b < x := by
        obtain ⟨x, hx, hbx⟩ := h
        rcases List.mem_cons.mp hx with rfl | hxr
        · exact absurd hbx hbd
        · exact ⟨x, hxr, hbx⟩
      obtain ⟨k, hk, heq, hblt, hfst, hmx⟩ := ih (i + 1) b l hx
      refine ⟨k + 1, by simpa using Nat.succ_lt_succ hk, ?_, ?_, ?_, ?_⟩
      · simp only [scanAux, if_neg hbd, List.getD_cons_succ]
        rw [heq]
        congr 1
        omega
      · simpa using hblt
      · intro q hq
        cases q with
        | zero =>
          simp only [List.getD_cons_zero, List.getD_cons_succ]
          exact lt_of_le_of_lt (not_lt.mp hbd) hblt
        | succ q' => simpa using hfst q' (by omega)
      · intro q hq
        cases q with
        | zero =>
          simp only [List.getD_cons_zero, List.getD_cons_succ]
          exact le_of_lt (lt_of_le_of_lt (not_lt.mp hbd) hblt)
        | succ q' => simpa using hmx q' (by simpa using hq)

/-! ### Helper lemmas about adjacent deltas -/

theorem length_deltasOf (ts : List Int) : (deltasOf ts).length = ts.length - 1 := by
  simp only [deltasOf, List.length_zipWith, List.length_tail]
  exact Nat.min_eq_right (Nat.sub_le _ _)

theorem getD_deltasOf (ts : List Int) (k : Nat) (h : k + 1 < ts.length) :
    (deltasOf ts).getD k 0 = dlt ts (k + 1) := by
  have hk : k < (deltasOf ts).length := by rw [length_deltasOf]; omega
  have h1 : k < ts.length := by omega
  have h2 : k < ts.tail.length := by rw [List.length_tail]; omega
  rw [List.getD_eq_getElem?_getD, List.getElem?_eq_getElem hk, Option.getD_some]
  unfold dlt
  have h3 : k + 1 - 1 = k := by omega
  rw [h3, List.getD_eq_getElem?_getD, List.getElem?_eq_getElem h,
    List.getD_eq_getElem?_getD, List.getElem?_eq_getElem h1]
  simp only [Option.getD_some, deltasOf, List.getElem_zipWith, List.getElem_tail]

theorem mem_deltasOf_getD (ts : List Int) (k : Nat) (h : k < (deltasOf ts).length) :
    (deltasOf ts).getD k 0 ∈ deltasOf ts := by
  rw [List.getD_eq_getElem?_getD, List.getElem?_eq_getElem h, Option.getD_some]
  exact List.getElem_mem _

/-- The biggest-jump scan lands on the first occurrence of the maximum
positive adjacent delta whenever one exists. -/
theorem jumpScan_of_firstMax (ts : List Int) (j : Nat) (h : isFirstMaxPosDelta ts j) :
    jumpScan ts 0 = (dlt ts j, j) := by
  obtain ⟨hj1, hjlen, hpos, hmax, hfirst⟩ := h
  have hlen : (deltasOf ts).length = ts.length - 1 := length_deltasOf ts
  have hjd : j - 1 < (deltasOf ts).length := by omega
  have hget : ∀ q, q < (deltasOf ts).length → (deltasOf ts).getD q 0 = dlt ts (q + 1) := by
    intro q hq
    exact getD_deltasOf ts q (by omega)
  have hx : ∃ d ∈ deltasOf ts, (0 : Int) < d := by
    refine ⟨(deltasOf ts).getD (j - 1) 0, mem_deltasOf_getD ts (j - 1) hjd, ?_⟩
    rw [hget (j - 1) hjd]
    have hj : j - 1 + 1 = j := by omega
    rw [hj]
    exact hpos
  obtain ⟨k, hk, heq, hb, hfst, hmx⟩ := scanAux_exists (deltasOf ts) 1 0 0 hx
  have hkj : j = k + 1 := by
    rcases Nat.lt_trichotomy j (k + 1) with hlt | heq2 | hgt
    · exfalso
      have h2 := hfst (j - 1) (by omega)
      rw [hget (j - 1) (by omega), hget k hk] at h2
      have h3 : j - 1 + 1 = j := by omega
      rw [h3] at h2
      have h4 := hmax (k + 1) (by omega) (by omega)
      omega
    · exact heq2
    · exfalso
      have h2 := hfirst (k + 1) (by omega) (by omega)
      have h3 := hmx (j - 1) (by omega)
      rw [hget (j - 1) (by omega), hget k hk] at h3
      have h4 : j - 1 + 1 = j := by omega
      rw [h4] at h3
      omega
  unfold jumpScan
  rw [heq, hget k hk, ← hkj]
  congr 1
  omega

/-! ### Helper lemmas about the geometric size enumeration -/

theorem geomCountFuel_le (fuel : Nat) : ∀ (cur m : Nat), 0 < cur →
    ∀ j < geomCountFuel fuel cur m, cur * 2 ^ j ≤ m := by
  induction fuel with
  | zero => intro cur m hc j hj; simp [geomCountFuel] at hj
  | succ fuel ih =>
    intro cur m hc j hj
    unfold geomCountFuel at hj
    by_cases hcond : 0 < cur ∧ cur ≤ m
    · rw [if_pos hcond] at hj
      cases j with
      | zero => simpa using hcond.2
      | succ j' =>
        have hstep := ih (2 * cur) m (by omega) j' (by omega)
        calc cur * 2 ^ (j' + 1) = 2 * cur * 2 ^ j' := by ring
          _ ≤ m := hstep
    · rw [if_neg hcond] at hj; omega

theorem growCountFuel_lt (fuel : Nat) : ∀ (cur m : Nat), 0 < cur →
    0 < growCountFuel fuel cur m → cur * 2 ^ (growCountFuel fuel cur m - 1) < m := by
  induction fuel with
  | zero => intro cur m hc h; simp [growCountFuel] at h
  | succ fuel ih =>
    intro cur m hc h
    unfold growCountFuel at h ⊢
    by_cases hcond : 0 < cur ∧ cur < m
    · rw [if_pos hcond] at h ⊢
      by_cases hin : 0 < growCountFuel fuel (2 * cur) m
      · have hstep := ih (2 * cur) m (by omega) hin
        have heq : growCountFuel fuel (2 * cur) m + 1 - 1 =
            (growCountFuel fuel (2 * cur) m - 1) + 1 := by omega
        rw [heq, pow_succ]
        calc cur * (2 ^ (growCountFuel fuel (2 * cur) m - 1) * 2)
            = 2 * cur * 2 ^ (growCountFuel fuel (2 * cur) m - 1) := by ring
          _ < m := hstep
      · have h0 : growCountFuel fuel (2 * cur) m = 0 := by omega
        rw [h0]
        simpa using hcond.2
    · rw [if_neg hcond] at h; omega

/-- The measurement pairs of `fill_timing_data` in closed form: step `i`
works on a buffer of `cur * 2 ^ i` bytes and always uses the same stride. -/
theorem sweepPairsFuel_eq (fuel : Nat) : ∀ (cur m stride : Nat), 0 < cur →
    sweepPairsFuel fuel cur m stride =
      (List.range (growCountFuel fuel cur m)).map (fun i => (cur * 2 ^ i, stride)) := by
  induction fuel with
  | zero => intro cur m stride hc; rfl
  | succ fuel ih =>
    intro cur m stride hc
    unfold sweepPairsFuel growCountFuel
    by_cases hcond : 0 < cur ∧ cur < m
    · rw [if_pos hcond, if_pos hcond, ih (2 * cur) m stride (by omega),
        List.range_succ_eq_map]
      simp only [List.map_cons, List.map_map]
      refine congrArg₂ List.cons (by simp) ?_
      apply List.map_congr_left
      intro i _
      simp only [Function.comp_apply, Nat.succ_eq_add_one, pow_succ]
      congr 1
      ring
    · rw [if_neg hcond, if_neg hcond]; rfl

/-! ### Helper lemmas about the fallback scan and the level/line detectors -/

theorem firstOver_some (freed : Nat → Int) (n i : Nat) (h : firstOver freed n = some i) :
    1 ≤ i ∧ i < n := by
  have hmem := List.mem_of_find?_eq_some h
  simp only [List.mem_map, List.mem_range] at hmem
  obtain ⟨jj, hjj, rfl⟩ := hmem
  omega

theorem detect_cache_level_core_pos (minSize maxSize : Nat) (td : List Int) (n : Nat)
    (freed : Nat → Int) (hmin : 1 ≤ minSize) (hmax : 2 ≤ maxSize) :
    0 < detect_cache_level_core minSize maxSize td n freed := by
  unfold detect_cache_level_core
  split
  · exact Nat.mul_pos hmin (pow_pos (by norm_num) _)
  · split
    · rcases hfo : firstOver freed n with _ | i
      · simp only [hfo]
        exact Nat.div_pos hmax (by norm_num)
      · simp only [hfo]
        exact Nat.mul_pos hmin (pow_pos (by norm_num) _)
    · exact Nat.div_pos hmax (by norm_num)

/-- Every result of `detect_cache_level` is 0, a swept size `minSize * 2 ^ e`
with `e` below the number of tests, or the final fallback `maxSize / 2`. -/
theorem detect_cache_level_classify (minSize maxSize stride : Nat) (measure : Nat → Int)
    (allocTD : Bool) (allocBuf : Nat → Bool) (freed : Nat → Int) :
    detect_cache_level minSize maxSize stride measure allocTD allocBuf freed = 0 ∨
    (∃ e, e < geomCountFuel 64 minSize maxSize ∧
      detect_cache_level minSize maxSize stride measure allocTD allocBuf freed =
        minSize * 2 ^ e) ∨
    detect_cache_level minSize maxSize stride measure allocTD allocBuf freed = maxSize / 2 := by
  unfold detect_cache_level
  by_cases hTD : allocTD = false
  · rw [if_pos hTD]; left; rfl
  rw [if_neg hTD]
  by_cases hany : ((sweepSizes minSize maxSize).any fun s => !allocBuf s) = true
  · rw [if_pos hany]; left; rfl
  rw [if_neg hany]
  unfold detect_cache_level_core
  set td := (sweepSizes minSize maxSize).map measure with htd
  have hlen : td.length = geomCountFuel 64 minSize maxSize := by
    rw [htd]; simp [sweepSizes]
  by_cases hpos : ∃ d ∈ deltasOf td, (0 : Int) < d
  · obtain ⟨k, hk, heq, hb, _, _⟩ := scanAux_exists _ 1 0 0 hpos
    have hjs : (jumpScan td 0).2 = 1 + k := by unfold jumpScan; rw [heq]
    rw [hjs, if_pos (by omega : 0 < 1 + k)]
    right; left
    have h11 : 1 + k - 1 = k := by omega
    rw [h11]
    refine ⟨k, ?_, rfl⟩
    have hd := length_deltasOf td
    omega
  · push_neg at hpos
    have hjs : jumpScan td 0 = (0, 0) := scanAux_all_le _ 1 0 0 hpos
    rw [hjs]
    rw [if_neg (by simp)]
    by_cases hcond : 2 ≤ (sweepSizes minSize maxSize).length ∧ (0 : Int) < freed 0
    · rw [if_pos hcond]
      rcases hfo : firstOver freed (sweepSizes minSize maxSize).length with _ | i
      · right; right; simp only [hfo]
      · simp only [hfo]
        right; left
        have hfi := firstOver_some freed _ i hfo
        refine ⟨i - 1, ?_, rfl⟩
        have hsl : (sweepSizes minSize maxSize).length = geomCountFuel 64 minSize maxSize := by
          simp [sweepSizes]
        omega
    · rw [if_neg hcond]; right; right; rfl

theorem ratioStep_snd (ts : List Int) (st : Int × Nat) (i : Nat) :
    (ratioStep ts st i).2 = st.2 ∨ (ratioStep ts st i).2 = candidateStrides.getD (i - 1) 0 := by
  unfold ratioStep
  split
  · split
    · right; rfl
    · left; rfl
  · left; rfl

theorem ratioScan_snd_mem (ts : List Int) :
    (ratioScan ts).2 = 32 ∨ (ratioScan ts).2 = 64 ∨ (ratioScan ts).2 = 128 := by
  have key : ∀ (st : Int × Nat), ∀ i ∈ ([1, 2, 3] : List Nat),
      (st.2 = 32 ∨ st.2 = 64 ∨ st.2 = 128) →
      ((ratioStep ts st i).2 = 32 ∨ (ratioStep ts st i).2 = 64 ∨
        (ratioStep ts st i).2 = 128) := by
    intro st i hi hst
    rcases ratioStep_snd ts st i with h | h
    · rw [h]; exact hst
    · rw [h]
      fin_cases hi <;> simp [candidateStrides]
  unfold ratioScan
  simp only [List.foldl_cons, List.foldl_nil]
  exact key _ 3 (by simp) (key _ 2 (by simp) (key _ 1 (by simp) (by simp)))

/-! ### Claims -/

/-- Claim C10: for every possible timing outcome, and also when the buffer
allocation fails, `detect_cache_line_size` returns a value in {32, 64, 128};
the largest candidate stride 256 is never returned. -/
theorem C10_result_set (maxSize : Nat) (allocOk : Bool) (measure : Nat → Int) :
    detect_cache_line_size maxSize allocOk measure = 32 ∨
    detect_cache_line_size maxSize allocOk measure = 64 ∨
    detect_cache_line_size maxSize allocOk measure = 128 := by
  unfold detect_cache_line_size
  cases allocOk with
  | false => simp
  | true =>
    rw [if_neg (by simp)]
    by_cases hpos : ∃ d ∈ deltasOf (candidateStrides.map measure), (0 : Int) < d
    · obtain ⟨k, hk, heq, hb, _, _⟩ := scanAux_exists _ 1 0 0 hpos
      have hj : jumpScan (candidateStrides.map measure) 0 =
          ((deltasOf (candidateStrides.map measure)).getD k 0, 1 + k) := heq
      rw [hj, if_pos (by simpa using hb)]
      have hlen : (deltasOf (candidateStrides.map measure)).length = 3 := by
        rw [length_deltasOf]; simp [candidateStrides]
      have hk3 : k < 3 := by omega
      have h1k : 1 + k - 1 = k := by omega
      rw [h1k]
      interval_cases k <;> simp [candidateStrides]
    · push_neg at hpos
      have hj : jumpScan (candidateStrides.map measure) 0 = (0, 0) :=
        scanAux_all_le _ 1 0 0 hpos
      rw [hj, if_neg (by simp)]
      exact ratioScan_snd_mem _

/-- Claim C3: in the fixed-stride estimator the returned line size is the
smaller stride of the adjacent pair with the largest positive timing delta
(ties to the first occurrence in ascending stride order), and the samples
[10, 10, 10, 40] yield 128. -/
theorem C3_line_first_max :
    (∀ (maxSize : Nat) (measure : Nat → Int) (j : Nat),
      isFirstMaxPosDelta (candidateStrides.map measure) j →
      detect_cache_line_size maxSize true measure = candidateStrides.getD (j - 1) 0) ∧
    detect_cache_line_size 1048576 true (fun s => if s = 256 then (40 : Int) else 10) = 128 := by
  constructor
  · intro maxSize measure j h
    unfold detect_cache_line_size
    rw [if_neg (by simp)]
    rw [jumpScan_of_firstMax _ j h]
    rw [if_pos (by simpa using h.2.2.1)]
  · decide

theorem C3_line_first_max_witness :
    detect_cache_line_size 1 true (fun s => if s = 64 then (5 : Int) else 0) = 32 := by
  have h := C3_line_first_max.1 1 (fun s => if s = 64 then (5 : Int) else 0) 1 (by decide)
  simpa [candidateStrides] using h

/-- Claim C4 counterexample: with flat positive timings (all samples 10) no
adjacent delta is positive, yet `detect_cache_line_size` returns 32, not the
claimed fixed default 64 (the relative-jump heuristic fires on the first
pair). -/
theorem C4_flat_counterexample :
    detect_cache_line_size 1048576 true (fun _ => (10 : Int)) = 32 ∧
    (∀ k < 4, 1 ≤ k → dlt (candidateStrides.map (fun _ => (10 : Int))) k ≤ 0) ∧
    (32 : Nat) ≠ 64 := by decide

/-- Claim C4 (amended): the 64-byte default survives only when, in addition
to no delta being positive, no recorded sample at a smaller candidate stride
is positive (e.g. all timings zero); the batch query on an all-zero flat
harness returns maxSize/2 for every level and line size 64, never zero. -/
theorem C4_fallback_amended :
    (∀ (maxSize : Nat) (measure : Nat → Int),
      (∀ jj < 3, (candidateStrides.map measure).getD jj 0 ≤ 0) →
      (∀ k < 4, 1 ≤ k → dlt (candidateStrides.map measure) k ≤ 0) →
      detect_cache_line_size maxSize true measure = 64) ∧
    get_all_cache_sizes true (fun _ => 0) (fun _ => 0) true (fun _ => true) (fun _ => 0) =
      (262144, 8388608, 33554432, 64) := by
  constructor
  · intro maxSize measure hsmall hdelta
    unfold detect_cache_line_size
    rw [if_neg (by simp)]
    have hlen4 : (candidateStrides.map measure).length = 4 := by simp [candidateStrides]
    have hall : ∀ d ∈ deltasOf (candidateStrides.map measure), d ≤ (0 : Int) := by
      intro d hd
      obtain ⟨q, hq, hdq⟩ := List.mem_iff_getElem.mp hd
      have hdlen := length_deltasOf (candidateStrides.map measure)
      have hq3 : q + 1 < 4 := by omega
      have hgd : (deltasOf (candidateStrides.map measure)).getD q 0 =
          dlt (candidateStrides.map measure) (q + 1) := getD_deltasOf _ q (by omega)
      rw [List.getD_eq_getElem?_getD, List.getElem?_eq_getElem hq, Option.getD_some] at hgd
      rw [← hdq, hgd]
      exact hdelta (q + 1) hq3 (by omega)
    have hjs : jumpScan (candidateStrides.map measure) 0 = (0, 0) :=
      scanAux_all_le _ 1 0 0 hall
    rw [hjs, if_neg (by simp)]
    have hstep : ∀ (st : Int × Nat), ∀ i ∈ ([1, 2, 3] : List Nat),
        ratioStep (candidateStrides.map measure) st i = st := by
      intro st i hi
      have hneg : ¬ 0 < (candidateStrides.map measure).getD (i - 1) 0 := by
        fin_cases hi
        · simpa using not_lt.mpr (hsmall 0 (by norm_num))
        · simpa using not_lt.mpr (hsmall 1 (by norm_num))
        · simpa using not_lt.mpr (hsmall 2 (by norm_num))
      unfold ratioStep
      rw [if_neg hneg]
    show (ratioScan (candidateStrides.map measure)).2 = 64
    unfold ratioScan
    simp only [List.foldl_cons, List.foldl_nil]
    rw [hstep (0, 64) 1 (by simp), hstep (0, 64) 2 (by simp), hstep (0, 64) 3 (by simp)]
  · decide

theorem C4_fallback_witness :
    detect_cache_line_size 1 true (fun _ => (0 : Int)) = 64 :=
  C4_fallback_amended.1 1 (fun _ => 0) (by decide) (by decide)

/-- Claim C8 counterexample: `fill_timing_data` called with maxAlignment 4
and stride 3 measures the pairs (size 1, stride 3), (size 2, stride 3); the
stride does not equal the current alignment as the spec text claims. -/
theorem C8_stride_counterexample :
    fill_timing_pairs 4 3 = [(1, 3), (2, 3)] ∧
    growthSweepPairsSpec 4 = [(1, 1), (2, 2)] ∧
    fill_timing_pairs 4 3 ≠ growthSweepPairsSpec 4 := by decide

/-- Claim C8 (amended): each sweep step of `fill_timing_data` allocates a
buffer of exactly the current alignment (2 ^ i at step i, doubling from 1)
and measures one traversal with the fixed caller-supplied stride, which is
constant across the sweep. -/
theorem C8_sweep_amended (maxAlignment stride : Nat) :
    fill_timing_pairs maxAlignment stride =
      (List.range (determine_size_of_timing_data_required maxAlignment)).map
        (fun i => (2 ^ i, stride)) := by
  unfold fill_timing_pairs determine_size_of_timing_data_required
  rw [sweepPairsFuel_eq 64 1 maxAlignment stride (by norm_num)]
  simp

/-- Claim C9 counterexample: for the power-of-two buffer size 4, stride 1
and iteration 3 (all within the generator bounds), the touched index is
3, not (3 * 1) mod (4 - 1) = 0: the code masks with size - 1, which is
reduction mod size, not mod (size - 1). -/
theorem C9_index_counterexample :
    (4 : Nat) = 2 ^ 2 ∧ 3 < iterSteps ∧ touchIndex 4 1 3 ≠ 3 * 1 % (4 - 1) := by decide

/-- Claim C9 (amended): for a power-of-two buffer size `2 ^ k` (k at most
32, every C size qualifies), each touch of the generator read-modify-writes
the byte at index `(i * stride) mod 2 ^ k`, computed by the bitwise AND
with `2 ^ k - 1`. -/
theorem C9_index_amended (k stride i : Nat) (data : List Nat) (hk : k ≤ 32) :
    touchIndex (2 ^ k) stride i = i * stride % 2 ^ k ∧
    iterate_through_data data (2 ^ k) stride =
      (List.range iterSteps).foldl
        (fun d ii => d.set (ii * stride % 2 ^ k) ((d.getD (ii * stride % 2 ^ k) 0 + 1) % 256))
        data := by
  have hidx : ∀ ii : Nat, touchIndex (2 ^ k) stride ii = ii * stride % 2 ^ k := by
    intro ii
    unfold touchIndex
    rw [Nat.and_pow_two_sub_one_eq_mod]
    exact Nat.mod_mod_of_dvd _ (pow_dvd_pow 2 hk)
  refine ⟨hidx i, ?_⟩
  unfold iterate_through_data
  congr 1
  funext d ii
  simp only [touchStep, hidx]

theorem C9_index_witness :
    touchIndex (2 ^ 2) 1 3 = 3 * 1 % 2 ^ 2 ∧
    iterate_through_data [] (2 ^ 2) 1 =
      (List.range iterSteps).foldl
        (fun d ii => d.set (ii * 1 % 2 ^ 2) ((d.getD (ii * 1 % 2 ^ 2) 0 + 1) % 256)) [] :=
  C9_index_amended 2 1 3 [] (by norm_num)

/-- Claim C5: the 50 percent fallback of `detect_cache_level` reads the
`timingData` array after it has been freed (cache.c frees on line 344, the
fallback reads on lines 359-369).  With all-equal recorded samples 10 and
allocator residue [1, 2, 2] in the freed array the call returns 16384,
while the documented behavior (scanning the recorded samples, second
conjunct) yields the maxSize/2 fallback 32768. -/
theorem C5_use_after_free_behavior :
    detect_cache_level 16384 65536 64 (fun _ => (10 : Int)) true (fun _ => true)
      (fun i => if i = 0 then 1 else 2) = 16384 ∧
    detect_cache_level 16384 65536 64 (fun _ => (10 : Int)) true (fun _ => true)
      (fun _ => (10 : Int)) = 32768 ∧
    (16384 : Nat) ≠ 65536 / 2 := by decide

/-- Claim C1: for `minSize < maxSize` both powers of two and a positive
stride, `detect_cache_level` returns 0 (the undetermined sentinel) or a
value inside [minSize, maxSize], for every timing outcome, every
allocation outcome, and every residue of the freed timing buffer. -/
theorem C1_detect_level_range (a b stride : Nat) (measure : Nat → Int) (allocTD : Bool)
    (allocBuf : Nat → Bool) (freed : Nat → Int) (hab : 2 ^ a < 2 ^ b) (hstride : 0 < stride) :
    detect_cache_level (2 ^ a) (2 ^ b) stride measure allocTD allocBuf freed = 0 ∨
    (2 ^ a ≤ detect_cache_level (2 ^ a) (2 ^ b) stride measure allocTD allocBuf freed ∧
     detect_cache_level (2 ^ a) (2 ^ b) stride measure allocTD allocBuf freed ≤ 2 ^ b) := by
  rcases detect_cache_level_classify (2 ^ a) (2 ^ b) stride measure allocTD allocBuf freed with
    h0 | ⟨e, he, heq⟩ | hh
  · exact Or.inl h0
  · right
    rw [heq]
    constructor
    · calc (2 : Nat) ^ a = 2 ^ a * 1 := by ring
        _ ≤ 2 ^ a * 2 ^ e := Nat.mul_le_mul_left _ Nat.one_le_two_pow
    · exact geomCountFuel_le 64 (2 ^ a) (2 ^ b) (pow_pos (by norm_num) a) e he
  · right
    rw [hh]
    have hab2 : a < b := (Nat.pow_lt_pow_iff_right (by norm_num)).mp hab
    have hdiv : (2 : Nat) ^ b / 2 = 2 ^ (b - 1) := by
      have hb : (2 : Nat) ^ b = 2 ^ (b - 1) * 2 := by
        rw [← pow_succ]
        congr 1
        omega
      rw [hb, Nat.mul_div_cancel _ (by norm_num)]
    constructor
    · rw [hdiv]
      exact Nat.pow_le_pow_right (by norm_num) (by omega)
    · exact Nat.div_le_self _ _

theorem C1_detect_level_range_witness :
    detect_cache_level (2 ^ 14) (2 ^ 19) 64 (fun _ => (0 : Int)) true (fun _ => true)
      (fun _ => 0) = 0 ∨
    (2 ^ 14 ≤ detect_cache_level (2 ^ 14) (2 ^ 19) 64 (fun _ => (0 : Int)) true
      (fun _ => true) (fun _ => 0) ∧
     detect_cache_level (2 ^ 14) (2 ^ 19) 64 (fun _ => (0 : Int)) true (fun _ => true)
      (fun _ => 0) ≤ 2 ^ 19) :=
  C1_detect_level_range 14 19 64 (fun _ => 0) true (fun _ => true) (fun _ => 0)
    (by norm_num) (by norm_num)

/-- Claim C2 counterexample: the sweep from 16 KB to 512 KB records six
samples, not five; a harness whose recorded samples begin with
[1, 1, 1, 4, 4] can continue with 100, and the call then returns 262144,
not the claimed 65536. -/
theorem C2_boundary_counterexample :
    ((sweepSizes 16384 524288).map
        (fun s => if s = 524288 then (100 : Int) else if 131072 ≤ s then 4 else 1)).take 5 =
      [1, 1, 1, 4, 4] ∧
    detect_cache_level 16384 524288 64
      (fun s => if s = 524288 then (100 : Int) else if 131072 ≤ s then 4 else 1)
      true (fun _ => true) (fun _ => 0) = 262144 ∧
    (262144 : Nat) ≠ 65536 := by decide

/-- Claim C2 (amended): whenever the recorded samples have a positive
adjacent delta, the boundary is the sweep index with the first maximum
positive delta and the returned capacity is the size at the index before
it; the scenario sweep 16 KB to 256 KB (five points) with recorded samples
[1, 1, 1, 4, 4] returns the size at index 2, 64 KB. -/
theorem C2_boundary_amended :
    (∀ (minSize maxSize stride : Nat) (measure : Nat → Int) (allocBuf : Nat → Bool)
      (freed : Nat → Int) (j : Nat),
      (∀ s ∈ sweepSizes minSize maxSize, allocBuf s = true) →
      isFirstMaxPosDelta ((sweepSizes minSize maxSize).map measure) j →
      detect_cache_level minSize maxSize stride measure true allocBuf freed =
        minSize * 2 ^ (j - 1)) ∧
    detect_cache_level 16384 262144 64 (fun s => if 131072 ≤ s then (4 : Int) else 1)
      true (fun _ => true) (fun _ => 0) = 65536 ∧
    (sweepSizes 16384 262144).map (fun s => if 131072 ≤ s then (4 : Int) else 1) =
      [1, 1, 1, 4, 4] := by
  refine ⟨?_, by decide, by decide⟩
  intro minSize maxSize stride measure allocBuf freed j halloc h
  unfold detect_cache_level
  rw [if_neg (by simp)]
  have hany : ((sweepSizes minSize maxSize).any fun s => !allocBuf s) = false := by
    rw [List.any_eq_false]
    intro x hx
    simp [halloc x hx]
  rw [if_neg (by simp [hany])]
  unfold detect_cache_level_core
  rw [jumpScan_of_firstMax _ j h]
  rw [if_pos (show 0 < (dlt ((sweepSizes minSize maxSize).map measure) j, j).2 from h.1)]

theorem C2_boundary_witness :
    detect_cache_level 1 4 1 (fun s => if s = 2 then (5 : Int) else 0) true (fun _ => true)
      (fun _ => 0) = 1 := by
  have h := C2_boundary_amended.1 1 4 1 (fun s => if s = 2 then (5 : Int) else 0)
    (fun _ => true) (fun _ => 0) 1 (by decide) (by decide)
  simpa using h

/-- Claim C6 counterexample: `detect_cache_level(1, 1, 64)` returns 0 with
every allocation succeeding (the final fallback computes maxSize / 2 = 0),
so a zero result does not imply an allocation failure. -/
theorem C6_zero_counterexample :
    detect_cache_level 1 1 64 (fun _ => (0 : Int)) true (fun _ => true) (fun _ => 0) = 0 ∧
    ¬ ∃ s ∈ sweepSizes 1 1, (fun _ : Nat => true) s = false := by decide

/-- Claim C6 (amended): for `minSize >= 1` and `maxSize >= 2`,
`detect_cache_level` returns 0 exactly when the timingData allocation or
one of the per-step buffer allocations fails; any such failure aborts the
whole call with result 0. -/
theorem C6_zero_iff_alloc_amended (minSize maxSize stride : Nat) (measure : Nat → Int)
    (allocTD : Bool) (allocBuf : Nat → Bool) (freed : Nat → Int)
    (hmin : 1 ≤ minSize) (hmax : 2 ≤ maxSize) :
    detect_cache_level minSize maxSize stride measure allocTD allocBuf freed = 0 ↔
    (allocTD = false ∨ ∃ s ∈ sweepSizes minSize maxSize, allocBuf s = false) := by
  constructor
  · intro h0
    by_contra hrhs
    push_neg at hrhs
    obtain ⟨hTD, hall⟩ := hrhs
    unfold detect_cache_level at h0
    rw [if_neg hTD] at h0
    have hany : ((sweepSizes minSize maxSize).any fun s => !allocBuf s) = false := by
      rw [List.any_eq_false]
      intro x hx
      have hbx : allocBuf x = true := by simpa using hall x hx
      simp [hbx]
    rw [if_neg (by simp [hany])] at h0
    exact absurd h0 (Nat.pos_iff_ne_zero.mp
      (detect_cache_level_core_pos minSize maxSize _ _ freed hmin hmax))
  · rintro (hTD | ⟨s, hs, hb⟩)
    · unfold detect_cache_level
      rw [if_pos hTD]
    · unfold detect_cache_level
      by_cases hTD : allocTD = false
      · rw [if_pos hTD]
      · rw [if_neg hTD, if_pos (List.any_eq_true.mpr ⟨s, hs, by simp [hb]⟩)]

theorem C6_zero_iff_witness :
    detect_cache_level 16384 524288 64 (fun _ => (0 : Int)) true (fun _ => true)
      (fun _ => 0) = 0 ↔
    ((true : Bool) = false ∨ ∃ s ∈ sweepSizes 16384 524288, (fun _ : Nat => true) s = false) :=
  C6_zero_iff_alloc_amended 16384 524288 64 (fun _ => 0) true (fun _ => true) (fun _ => 0)
    (by norm_num) (by norm_num)

/-- An `unsigned int` power of two with exponent at least 32 is 0. -/
theorem int_pow_two_eq_zero (e : Nat) (h : 32 ≤ e) : int_pow 2 e = 0 := by
  unfold int_pow
  exact Nat.mod_eq_zero_of_dvd (pow_dvd_pow 2 h)

/-- Claim C7 counterexample: with maxAlignment = 2 the growth sweep records
a single sample, the scan location stays 0, the `unsigned int` subtraction
wraps, and `get_cache_line` returns `int_pow(2, 2 ^ 32 - 1) = 0`, which is
not a power of two (and in particular not one below the maximum). -/
theorem C7_power_counterexample :
    ¬ ∃ k, get_cache_line 2 1 (fun _ _ => 0) = 2 ^ k ∧ 2 ^ k ≤ 2 := by
  have h0 : get_cache_line 2 1 (fun _ _ => 0) = 0 := by
    have hts : sweepTimings 2 1 (fun _ _ => 0) = [0] := by rfl
    unfold get_cache_line
    rw [hts]
    unfold get_cache_line_size_from_timing_data
    have hjs : (jumpScan ([0] : List Int) (-9001)).2 = 0 := by decide
    rw [hjs, Nat.zero_add, Nat.mod_eq_of_lt (by norm_num : 2 ^ 32 - 1 < 2 ^ 32)]
    exact int_pow_two_eq_zero (2 ^ 32 - 1) (by norm_num)
  rintro ⟨k, hk, -⟩
  rw [h0] at hk
  exact pow_ne_zero k (by norm_num) hk.symm

/-- Claim C7 (amended): for every maxAlignment in the `unsigned int` range
and every sweep outcome with at least one adjacent delta above the -9001
sentinel (which requires at least two sweep points, i.e. maxAlignment at
least 3), `get_cache_line` returns a power of two strictly below
maxAlignment; otherwise the location underflows and the result is
`int_pow(2, 2 ^ 32 - 1) = 0`. -/
theorem C7_power_amended (maxAlignment stride : Nat) (measure : Nat → Nat → Int)
    (hmax : maxAlignment < 2 ^ 32)
    (h : ∃ d ∈ deltasOf (sweepTimings maxAlignment stride measure), (-9001 : Int) < d) :
    ∃ k, get_cache_line maxAlignment stride measure = 2 ^ k ∧ 2 ^ k < maxAlignment := by
  obtain ⟨k, hk, heq, hb, _, _⟩ := scanAux_exists _ 1 (-9001) 0 h
  have hlen : (sweepTimings maxAlignment stride measure).length =
      determine_size_of_timing_data_required maxAlignment := by
    simp [sweepTimings]
  have hdl : (deltasOf (sweepTimings maxAlignment stride measure)).length =
      determine_size_of_timing_data_required maxAlignment - 1 := by
    rw [length_deltasOf, hlen]
  have hkn : k < determine_size_of_timing_data_required maxAlignment - 1 := by
    rw [← hdl]; exact hk
  have hn2 : 2 ≤ determine_size_of_timing_data_required maxAlignment := by omega
  have hpos0 : 0 < growCountFuel 64 1 maxAlignment := by
    have h2 := hn2
    unfold determine_size_of_timing_data_required at h2
    omega
  have hnlt : 1 * 2 ^ (determine_size_of_timing_data_required maxAlignment - 1) <
      maxAlignment :=
    growCountFuel_lt 64 1 maxAlignment (by norm_num) hpos0
  rw [one_mul] at hnlt
  have hn32 : determine_size_of_timing_data_required maxAlignment - 1 < 32 := by
    by_contra hcon
    push_neg at hcon
    have hmono : (2 : Nat) ^ 32 ≤
        2 ^ (determine_size_of_timing_data_required maxAlignment - 1) :=
      Nat.pow_le_pow_right (by norm_num) hcon
    exact absurd (lt_trans (lt_of_le_of_lt hmono hnlt) hmax) (lt_irrefl _)
  unfold get_cache_line get_cache_line_size_from_timing_data
  have hjs : (jumpScan (sweepTimings maxAlignment stride measure) (-9001)).2 = 1 + k := by
    unfold jumpScan
    rw [heq]
  rw [hjs]
  have hexp : (1 + k + (2 ^ 32 - 1)) % 2 ^ 32 = k := by
    have h1 : 1 + k + (2 ^ 32 - 1) = k + 2 ^ 32 := by omega
    rw [h1, Nat.add_mod_right]
    exact Nat.mod_eq_of_lt (by omega)
  rw [hexp]
  refine ⟨k, ?_, ?_⟩
  · unfold int_pow
    exact Nat.mod_eq_of_lt (Nat.pow_lt_pow_right (by norm_num) (by omega))
  · exact lt_of_le_of_lt
      (Nat.pow_le_pow_right (by norm_num)
        (by omega : k ≤ determine_size_of_timing_data_required maxAlignment - 1))
      hnlt

theorem C7_power_witness :
    ∃ k, get_cache_line 4 1 (fun s _ => if s = 2 then (1 : Int) else 0) = 2 ^ k ∧
      2 ^ k < 4 :=
  C7_power_amended 4 1 (fun s _ => if s = 2 then (1 : Int) else 0) (by norm_num) (by decide)
